import Mathlib

/-!
Shallow embedding of the TensorLayer sources
`tensorlayer/layers/recurrent/lstm_layers.py` (the `ConvLSTMLayer`
recurrence driver) and `tensorlayer/layers/convolution/expert_deconv.py`
(the `DeConv1dLayer` / `DeConv2dLayer` / `DeConv3dLayer` wrappers).

Tensors are modelled as a shape (list of dimension sizes), a dtype tag and
row-major flat data.  The TensorFlow primitives the driver calls
(`inputs[:, t, :, :, :]` strided slicing, `tf.concat(values, 1)`,
`tf.reshape(x, [-1, ...])`) are embedded from their documented semantics.
The convolutional cell (`BasicConvLSTMCell`, defined in a file outside the
sources at hand) is kept abstract: a `Cell` is any step function together
with its zero-state constructor and the names of the variables it creates,
so every theorem below holds for every cell.
-/

namespace TL

/-- Errors surfaced during layer construction.  The Python code raises a
plain `Exception` for the rank check; TensorFlow raises its own errors for
out-of-range static slicing, empty concatenation, impossible reshapes and
variable-scope conflicts.  The Python `outputs[-1]` on an empty list raises
`IndexError`. -/
inductive TLError where
  | rankError (msg : String)
  | sliceOutOfRange (idx dim : Nat)
  | varExists
  | emptyLast
  | concatEmpty
  | concatMismatch
  | reshapeError
deriving DecidableEq, Repr

/-- An n-dimensional array value: shape, dtype tag, row-major data. -/
structure Tensor (α : Type) where
  shape : List Nat
  dtype : String
  data : List α
deriving DecidableEq, Repr

/-- Well-formedness: the flat data has exactly as many entries as the shape
prescribes. -/
def Tensor.wf (t : Tensor α) : Prop := t.data.length = t.shape.prod

def emptyTensor : Tensor α := ⟨[], "", []⟩

/-- The value of the strided slice `t[:, idx, :, :, ...]` (all of axis 0,
index `idx` on axis 1, all of the remaining axes), assuming the index is in
range.  Row-major: batch block `i` of the result is the `idx`-th step block
inside batch block `i` of the input. -/
def sliceValue (t : Tensor α) (idx : Nat) : Tensor α :=
  match t.shape with
  | b :: s :: rest =>
    let inner := rest.prod
    ⟨b :: rest, t.dtype,
      (List.range b).flatMap (fun i => (t.data.drop ((i * s + idx) * inner)).take inner)⟩
  | _ => ⟨[], t.dtype, []⟩

/-- TensorFlow strided slice `t[:, idx, :, :, ...]`: with a statically known
shape, an out-of-range index on axis 1 is rejected at graph-construction
time. -/
def sliceAxis1 (t : Tensor α) (idx : Nat) : Except TLError (Tensor α) :=
  match t.shape with
  | _ :: s :: _ =>
    if idx < s then .ok (sliceValue t idx) else .error (.sliceOutOfRange idx s)
  | _ => .error (.sliceOutOfRange idx 0)

/-- Batch block `i` of a tensor: the `i`-th chunk of `(shape.drop 1).prod`
consecutive data entries. -/
def batchBlock (t : Tensor α) (i : Nat) : List α :=
  let bs := (t.shape.drop 1).prod
  (t.data.drop (i * bs)).take bs

/-- The row-major data of `tf.concat(ts, 1)`: for each index `i` on axis 0,
the batch-`i` blocks of all the tensors in order. -/
def concatAxis1Data (ts : List (Tensor α)) (b : Nat) : List α :=
  (List.range b).flatMap (fun i => ts.flatMap (fun t => batchBlock t i))

/-- Compatibility required by `tf.concat(values, 1)`: same rank, and the
same dimensions everywhere except on axis 1. -/
def concatCompatible (t0 t : Tensor α) : Bool :=
  t.shape.length == t0.shape.length &&
  t.shape.take 1 == t0.shape.take 1 &&
  t.shape.drop 2 == t0.shape.drop 2

/-- `tf.concat(ts, 1)`: fails on an empty list, on rank < 2 and on
incompatible shapes; otherwise sums the axis-1 dimensions and interleaves
the data batch-block by batch-block. -/
def concatAxis1 (ts : List (Tensor α)) : Except TLError (Tensor α) :=
  match ts with
  | [] => .error .concatEmpty
  | t0 :: rest =>
    match t0.shape with
    | b :: _ :: tail2 =>
      if rest.all (concatCompatible t0) then
        let sumDim := (ts.map (fun t => t.shape.getD 1 0)).sum
        .ok ⟨b :: sumDim :: tail2, t0.dtype, concatAxis1Data ts b⟩
      else .error .concatMismatch
    | _ => .error .concatMismatch

/-- `tf.reshape(t, [-1] ++ rest)`: the leading `-1` is inferred from the
element count, which must be exactly divisible by the product of the given
dimensions (and that product must be nonzero for the inference to be
possible).  The row-major data is unchanged. -/
def reshapeNeg1 (t : Tensor α) (rest : List Nat) : Except TLError (Tensor α) :=
  let k := rest.prod
  if k = 0 then .error .reshapeError
  else if t.shape.prod % k = 0 then .ok ⟨(t.shape.prod / k) :: rest, t.dtype, t.data⟩
  else .error .reshapeError

/-- A TensorFlow variable scope: its sticky reuse flag and the variables
created inside it so far. -/
structure VarScope where
  reuse : Bool
  vars : List String
deriving DecidableEq, Repr

/-- `tf.get_variable` semantics for a set of variable names: under reuse,
existing variables are returned and nothing is created; without reuse, the
variables are created, and a name that already exists is an error. -/
def getOrCreate (sc : VarScope) (names : List String) : Except TLError (VarScope × List String) :=
  if sc.reuse then .ok (sc, [])
  else if names.any (fun nm => sc.vars.contains nm) then .error .varExists
  else .ok ({ sc with vars := sc.vars ++ names }, names)

/-- An abstract convolutional recurrent cell (the `cell_fn` argument, e.g.
`BasicConvLSTMCell`): the names of the variables it creates on first use,
its step function, and its zero-state constructor
`zero_state(batch_size, dtype)`. -/
structure Cell (α σ : Type) where
  paramNames : List String
  app : Tensor α → σ → Tensor α × σ
  zeroState : Nat → String → σ

/-- The state threaded through the unroll loop of
`ConvLSTMLayer.__init__`: the variable scope, the recurrent state, the
collected per-step outputs, the number of cell invocations executed so
far, and a log of (step, variables created at that step). -/
structure LoopState (α σ : Type) where
  scope : VarScope
  state : σ
  outputs : List (Tensor α)
  calls : Nat
  createdLog : List (Nat × List String)

/-- One iteration of the loop body (lines 141-144 of `lstm_layers.py`):
`if time_step > 0: tf.get_variable_scope().reuse_variables()`, then
`(cell_output, state) = cell(inputs[:, time_step, :, :, :], state)` and
`outputs.append(cell_output)`.  The slice is evaluated first, then the
cell's variables are created-or-reused, then the cell computes. -/
def stepOnce (cell : Cell α σ) (inputs : Tensor α) (t : Nat) (ls : LoopState α σ) :
    Except TLError (LoopState α σ) :=
  let sc := if 0 < t then { ls.scope with reuse := true } else ls.scope
  match sliceAxis1 inputs t with
  | .error e => .error e
  | .ok x =>
    match getOrCreate sc cell.paramNames with
    | .error e => .error e
    | .ok (sc2, created) =>
      let r := cell.app x ls.state
      .ok { scope := sc2, state := r.2, outputs := ls.outputs ++ [r.1],
            calls := ls.calls + 1, createdLog := ls.createdLog ++ [(t, created)] }

/-- Runs loop iterations `t, t+1, ..., t+fuel-1`; on an error the loop
state reached so far is returned alongside the error. -/
def runAux (cell : Cell α σ) (inputs : Tensor α) :
    Nat → Nat → LoopState α σ → LoopState α σ × Option TLError
  | _, 0, ls => (ls, none)
  | t, fuel+1, ls =>
    match stepOnce cell inputs t ls with
    | .error e => (ls, some e)
    | .ok ls2 => runAux cell inputs (t+1) fuel ls2

/-- `for time_step in range(n_steps): ...` -/
def runLoop (cell : Cell α σ) (inputs : Tensor α) (nSteps : Nat) (ls : LoopState α σ) :
    LoopState α σ × Option TLError :=
  runAux cell inputs 0 nSteps ls

/-- Lines 132-137: `initial_state` defaults to
`cell.zero_state(batch_size, dtype=inputs.dtype)` and is otherwise taken
exactly as supplied. -/
def resolveInitialState (cell : Cell α σ) (batchSize : Nat) (dt : String) :
    Option σ → σ
  | none => cell.zeroState batchSize dt
  | some st => st

/-- The loop state at loop entry: a fresh scope
(`tf.variable_scope(name)`, reuse off, nothing created), the resolved
initial state, no outputs, no calls. -/
def initialLoopState (st0 : σ) : LoopState α σ :=
  { scope := { reuse := false, vars := [] }, state := st0,
    outputs := [], calls := 0, createdLog := [] }

/-- Lines 152-169: the output-shaping policy.  `return_last` takes
`outputs[-1]`; otherwise the per-step outputs are concatenated on axis 1
and reshaped to `[-1, cell_shape[0]*cell_shape[1]*feature_map]`
(`return_seq_2d`) or to
`[-1, n_steps, cell_shape[0], cell_shape[1], feature_map]`. -/
def shapeOutputs (returnLast returnSeq2d : Bool) (cellShape : Nat × Nat)
    (featureMap nSteps : Nat) (outputs : List (Tensor α)) : Except TLError (Tensor α) :=
  if returnLast then
    match outputs.getLast? with
    | some o => .ok o
    | none => .error .emptyLast
  else
    match concatAxis1 outputs with
    | .error e => .error e
    | .ok c =>
      if returnSeq2d then reshapeNeg1 c [cellShape.1 * cellShape.2 * featureMap]
      else reshapeNeg1 c [nSteps, cellShape.1, cellShape.2, featureMap]

/-- What `ConvLSTMLayer.__init__` exposes on success: `batch_size`,
`initial_state`, `outputs` and `final_state`. -/
structure ConvLSTMOut (α σ : Type) where
  batchSize : Nat
  initialState : σ
  outputs : Tensor α
  finalState : σ
deriving DecidableEq, Repr

/-- The message of the `Exception` raised by the rank check
(lines 111-117). -/
def rankErrMsg : String :=
  "RNN : Input dimension should be rank 5 : [batch_size, n_steps, input_x, input_y, feature_map]"

/-- `ConvLSTMLayer.__init__` (lines 110-171): the rank-5 check, the
batch size from `shape[0]`, the initial state, the unrolling loop inside
the variable scope, then the output-shaping policy and `final_state`.
Besides the constructed layer (or the raised error), the embedding also
returns the observable trace of the run: the number of cell invocations
executed and the log of variables created per step. -/
def ConvLSTMLayer (cell : Cell α σ) (cellShape : Nat × Nat) (featureMap nSteps : Nat)
    (initialState : Option σ) (returnLast returnSeq2d : Bool) (inputs : Tensor α) :
    (Nat × List (Nat × List String)) × Except TLError (ConvLSTMOut α σ) :=
  if inputs.shape.length = 5 then
    let batchSize := inputs.shape.headD 0
    let st0 := resolveInitialState cell batchSize inputs.dtype initialState
    let r := runLoop cell inputs nSteps (initialLoopState st0)
    match r.2 with
    | some e => ((r.1.calls, r.1.createdLog), .error e)
    | none =>
      ((r.1.calls, r.1.createdLog),
        (shapeOutputs returnLast returnSeq2d cellShape featureMap nSteps r.1.outputs).map
          (fun o => { batchSize := batchSize, initialState := st0,
                      outputs := o, finalState := r.1.state }))
  else ((0, []), .error (.rankError rankErrMsg))

/-- Manual unrolling, following the spec's words: for `t` in increasing
order starting at `t0`, apply the cell to the `t`-th per-step input and
the threaded state, collecting the per-step outputs. -/
def manualRun (cell : Cell α σ) (x : Nat → Tensor α) :
    Nat → Nat → σ → List (Tensor α) × σ
  | _, 0, s => ([], s)
  | t, fuel+1, s =>
    let r := cell.app (x t) s
    let rest := manualRun cell x (t+1) fuel r.2
    (r.1 :: rest.1, rest.2)

/-- Discriminator for `Except` results. -/
def exceptIsOk : Except ε β → Bool
  | .ok _ => true
  | .error _ => false

/-- The construction-time configuration of a `DeConv1dLayer`,
`DeConv2dLayer` or `DeConv3dLayer` (`expert_deconv.py`).  `ι` is the type
of initializer objects; `b_init = none` models `b_init=None` (a supplied
initializer object is truthy, so `if self.b_init:` is its `isSome`). -/
structure DeConvLayer (α ι : Type) where
  act : Option (Tensor α → Tensor α)
  shape : List Nat
  outputsShape : List Nat
  strides : List Nat
  padding : String
  dataFormat : String
  dilationRate : List Nat
  W_init : ι
  b_init : Option ι

/-- The parameters a `build` call creates: the filter, and the bias when a
bias initializer was supplied. -/
structure BuiltDeConv (α : Type) where
  W : Tensor α
  b : Option (Tensor α)

/-- `build` (identical in the 1D/2D/3D classes): always create
`self.W = self._get_weights("filters", shape=self.shape, init=self.W_init)`,
and create `self.b` with shape `self.shape[-2]` only when `self.b_init` is
supplied.  `getWeights` is the external parameter store
(`Layer._get_weights`). -/
def DeConvLayer.build (l : DeConvLayer α ι)
    (getWeights : String → List Nat → ι → Tensor α) : BuiltDeConv α :=
  { W := getWeights "filters" l.shape l.W_init,
    b := match l.b_init with
         | some bi => some (getWeights "biases" [l.shape.getD (l.shape.length - 2) 0] bi)
         | none => none }

/-- `forward` (identical in the 1D/2D/3D classes up to the arity of the
external primitive): the transposed-convolution primitive
(`tf.nn.convNd_transpose`, abstract here) applied with the configured
filter, output shape, strides, padding, data format and dilations; then
`tf.nn.bias_add` when `self.b_init` is supplied; then `self.act` when
supplied. -/
def DeConvLayer.forward (l : DeConvLayer α ι)
    (prim : Tensor α → Tensor α → List Nat → List Nat → String → String → List Nat → Tensor α)
    (biasAdd : Tensor α → Tensor α → String → Tensor α)
    (bl : BuiltDeConv α) (inputs : Tensor α) : Tensor α :=
  let o1 := prim inputs bl.W l.outputsShape l.strides l.padding l.dataFormat l.dilationRate
  let o2 := if l.b_init.isSome then biasAdd o1 (bl.b.getD emptyTensor) l.dataFormat else o1
  match l.act with
  | some f => f o2
  | none => o2

def applyAct (act : Option (Tensor α → Tensor α)) (t : Tensor α) : Tensor α :=
  match act with
  | some f => f t
  | none => t

/-- The forward contract in the spec's words: the primitive with the
configured arguments, followed by a bias addition exactly when a bias
parameter exists, followed by the activation exactly when one was
supplied. -/
def forwardContract (l : DeConvLayer α ι)
    (prim : Tensor α → Tensor α → List Nat → List Nat → String → String → List Nat → Tensor α)
    (biasAdd : Tensor α → Tensor α → String → Tensor α)
    (W : Tensor α) (b : Option (Tensor α)) (inputs : Tensor α) : Tensor α :=
  let conv := prim inputs W l.outputsShape l.strides l.padding l.dataFormat l.dilationRate
  applyAct l.act (match b with
    | some bt => biasAdd conv bt l.dataFormat
    | none => conv)

/-! ### Loop characterization lemmas -/

lemma sliceAxis1_ok_of_lt {t : Tensor α} {b s : Nat} {rest : List Nat}
    (hshape : t.shape = b :: s :: rest) {u : Nat} (hu : u < s) :
    sliceAxis1 t u = .ok (sliceValue t u) := by
  simp [sliceAxis1, hshape, hu]

lemma sliceAxis1_err_of_ge {t : Tensor α} {b s : Nat} {rest : List Nat}
    (hshape : t.shape = b :: s :: rest) {u : Nat} (hu : s ≤ u) :
    sliceAxis1 t u = .error (.sliceOutOfRange u s) := by
  simp [sliceAxis1, hshape, Nat.not_lt.mpr hu]

lemma manualRun_length (cell : Cell α σ) (x : Nat → Tensor α) :
    ∀ (fuel t : Nat) (s : σ), (manualRun cell x t fuel s).1.length = fuel := by
  intro fuel
  induction fuel with
  | zero => intro t s; simp [manualRun]
  | succ m ih => intro t s; simp [manualRun, ih]

lemma manualRun_mem (cell : Cell α σ) (x : Nat → Tensor α) :
    ∀ (fuel t : Nat) (s : σ) (o : Tensor α), o ∈ (manualRun cell x t fuel s).1 →
      ∃ u st, o = (cell.app (x u) st).1 := by
  intro fuel
  induction fuel with
  | zero => intro t s o ho; simp [manualRun] at ho
  | succ m ih =>
    intro t s o ho
    simp only [manualRun, List.mem_cons] at ho
    rcases ho with ho | ho
    · exact ⟨t, s, ho⟩
    · exact ih (t+1) _ o ho

lemma runAux_ok_of_pos (cell : Cell α σ) (inputs : Tensor α) :
    ∀ (fuel t : Nat) (ls : LoopState α σ), 1 ≤ t →
      (∀ u, t ≤ u → u < t + fuel → sliceAxis1 inputs u = .ok (sliceValue inputs u)) →
      runAux cell inputs t fuel ls =
        ({ scope := if fuel = 0 then ls.scope else ⟨true, ls.scope.vars⟩,
           state := (manualRun cell (sliceValue inputs) t fuel ls.state).2,
           outputs := ls.outputs ++ (manualRun cell (sliceValue inputs) t fuel ls.state).1,
           calls := ls.calls + fuel,
           createdLog := ls.createdLog ++
             (List.range' t fuel).map (fun u => (u, ([] : List String))) }, none) := by
  intro fuel
  induction fuel with
  | zero =>
    intro t ls ht hs
    simp [runAux, manualRun]
  | succ m ih =>
    intro t ls ht hs
    have hslice : sliceAxis1 inputs t = .ok (sliceValue inputs t) :=
      hs t le_rfl (by omega)
    have hstep : stepOnce cell inputs t ls =
        .ok { scope := ⟨true, ls.scope.vars⟩,
              state := (cell.app (sliceValue inputs t) ls.state).2,
              outputs := ls.outputs ++ [(cell.app (sliceValue inputs t) ls.state).1],
              calls := ls.calls + 1,
              createdLog := ls.createdLog ++ [(t, ([] : List String))] } := by
      simp [stepOnce, hslice, getOrCreate, Nat.lt_of_lt_of_le Nat.zero_lt_one ht]
    simp only [runAux, hstep]
    rw [ih (t+1) _ (by omega) (fun u hu1 hu2 => hs u (by omega) (by omega))]
    simp [manualRun, List.range'_succ, List.append_assoc]
    omega

lemma runLoop_char (cell : Cell α σ) (inputs : Tensor α) (n : Nat) (st0 : σ)
    (h1 : 1 ≤ n)
    (hs : ∀ u, u < n → sliceAxis1 inputs u = .ok (sliceValue inputs u)) :
    (runLoop cell inputs n (initialLoopState st0)).2 = none ∧
    (runLoop cell inputs n (initialLoopState st0)).1.outputs =
      (manualRun cell (sliceValue inputs) 0 n st0).1 ∧
    (runLoop cell inputs n (initialLoopState st0)).1.state =
      (manualRun cell (sliceValue inputs) 0 n st0).2 ∧
    (runLoop cell inputs n (initialLoopState st0)).1.calls = n ∧
    (runLoop cell inputs n (initialLoopState st0)).1.createdLog =
      (0, cell.paramNames) ::
        (List.range' 1 (n - 1)).map (fun u => (u, ([] : List String))) := by
  obtain ⟨m, rfl⟩ : ∃ m, n = m + 1 := ⟨n - 1, by omega⟩
  have hslice0 : sliceAxis1 inputs 0 = .ok (sliceValue inputs 0) := hs 0 (by omega)
  have hstep0 : stepOnce cell inputs 0 (initialLoopState st0) =
      .ok { scope := ⟨false, cell.paramNames⟩,
            state := (cell.app (sliceValue inputs 0) st0).2,
            outputs := [(cell.app (sliceValue inputs 0) st0).1],
            calls := 1,
            createdLog := [(0, cell.paramNames)] } := by
    simp [stepOnce, hslice0, getOrCreate, initialLoopState]
  simp only [runLoop, runAux, hstep0]
  rw [runAux_ok_of_pos cell inputs m 1 _ le_rfl
      (fun u hu1 hu2 => hs u (by omega))]
  simp [manualRun]
  omega

lemma runAux_err_of_pos (cell : Cell α σ) (inputs : Tensor α) (e : TLError) (te : Nat)
    (he : sliceAxis1 inputs te = .error e) :
    ∀ (fuel t : Nat) (ls : LoopState α σ), 1 ≤ t → t ≤ te → te < t + fuel →
      (∀ u, t ≤ u → u < te → sliceAxis1 inputs u = .ok (sliceValue inputs u)) →
      (runAux cell inputs t fuel ls).2 = some e ∧
      (runAux cell inputs t fuel ls).1.calls = ls.calls + (te - t) := by
  intro fuel
  induction fuel with
  | zero => intro t ls ht hte hlt hs; omega
  | succ m ih =>
    intro t ls ht hte hlt hs
    rcases Nat.eq_or_lt_of_le hte with heq | hlt2
    · subst heq
      have hstep : stepOnce cell inputs t ls = .error e := by
        simp [stepOnce, he]
      simp only [runAux, hstep]
      simp
    · have hslice : sliceAxis1 inputs t = .ok (sliceValue inputs t) :=
        hs t le_rfl hlt2
      have hstep : stepOnce cell inputs t ls =
          .ok { scope := ⟨true, ls.scope.vars⟩,
                state := (cell.app (sliceValue inputs t) ls.state).2,
                outputs := ls.outputs ++ [(cell.app (sliceValue inputs t) ls.state).1],
                calls := ls.calls + 1,
                createdLog := ls.createdLog ++ [(t, ([] : List String))] } := by
        simp [stepOnce, hslice, getOrCreate, Nat.lt_of_lt_of_le Nat.zero_lt_one ht]
      have hrec := ih (t+1)
        { scope := ⟨true, ls.scope.vars⟩,
          state := (cell.app (sliceValue inputs t) ls.state).2,
          outputs := ls.outputs ++ [(cell.app (sliceValue inputs t) ls.state).1],
          calls := ls.calls + 1,
          createdLog := ls.createdLog ++ [(t, ([] : List String))] }
        (by omega) (by omega) (by omega) (fun u hu1 hu2 => hs u (by omega) hu2)
      simp only [runAux, hstep]
      refine ⟨hrec.1, ?_⟩
      rw [hrec.2]
      show ls.calls + 1 + (te - (t + 1)) = ls.calls + (te - t)
      omega

/-! ### Concatenation, reshape and output-shaping lemmas -/

lemma sum_map_const {l : List β} {f : β → Nat} {c : Nat}
    (h : ∀ x ∈ l, f x = c) : (l.map f).sum = l.length * c := by
  induction l with
  | nil => simp
  | cons a l ih =>
    simp only [List.map_cons, List.sum_cons, List.length_cons]
    rw [h a (by simp), ih (fun x hx => h x (by simp [hx]))]
    ring

lemma batchBlock_length {t : Tensor α} {b : Nat} {tail : List Nat}
    (hsh : t.shape = b :: tail) (hwf : t.data.length = t.shape.prod)
    {i : Nat} (hi : i < b) :
    (batchBlock t i).length = tail.prod := by
  have hlen : t.data.length = b * tail.prod := by rw [hwf, hsh]; simp
  unfold batchBlock
  rw [hsh]
  simp only [List.drop_succ_cons, List.drop_zero, List.length_take, List.length_drop, hlen]
  have h1 : b * tail.prod - i * tail.prod = (b - i) * tail.prod :=
    (Nat.sub_mul b i tail.prod).symm
  rw [h1]
  exact Nat.min_eq_left (Nat.le_mul_of_pos_left _ (by omega))

lemma concatAxis1Data_length (ts : List (Tensor α)) (b ch cw fm : Nat)
    (hsh : ∀ t ∈ ts, t.shape = [b, ch, cw, fm])
    (hwf : ∀ t ∈ ts, t.data.length = t.shape.prod) :
    (concatAxis1Data ts b).length = b * (ts.length * (ch * cw * fm)) := by
  unfold concatAxis1Data
  rw [List.length_flatMap]
  rw [sum_map_const (c := ts.length * (ch * cw * fm)) ?inner]
  · simp
  case inner =>
    intro i hi
    simp only [Function.comp]
    rw [List.length_flatMap]
    rw [sum_map_const (c := ch * cw * fm) ?blk]
    case blk =>
      intro t ht
      simp only [Function.comp]
      have := batchBlock_length (hsh t ht) (hwf t ht) (List.mem_range.mp hi)
      simpa [Nat.mul_assoc] using this

lemma concatAxis1_ok (t0 : Tensor α) (rest : List (Tensor α)) (b ch cw fm : Nat)
    (hsh : ∀ t ∈ t0 :: rest, t.shape = [b, ch, cw, fm]) :
    concatAxis1 (t0 :: rest) =
      .ok ⟨[b, (t0 :: rest).length * ch, cw, fm], t0.dtype,
           concatAxis1Data (t0 :: rest) b⟩ := by
  have h0 := hsh t0 (by simp)
  have hall : rest.all (concatCompatible t0) = true := by
    rw [List.all_eq_true]
    intro t ht
    simp [concatCompatible, hsh t (by simp [ht]), h0]
  have hsum : ((t0 :: rest).map (fun t => t.shape.getD 1 0)).sum =
      (t0 :: rest).length * ch :=
    sum_map_const (fun t ht => by simp [hsh t ht])
  simp only [concatAxis1, h0, hall, if_pos, hsum]

lemma reshapeNeg1_ok {t : Tensor α} (rest : List Nat) (k : Nat) (hk : rest.prod = k)
    (hpos : 0 < k) {q : Nat} (hq : t.shape.prod = q * k) :
    reshapeNeg1 t rest = .ok ⟨q :: rest, t.dtype, t.data⟩ := by
  simp only [reshapeNeg1, hk, hq]
  rw [if_neg (by omega), if_pos (Nat.mul_mod_left q k)]
  rw [Nat.mul_div_cancel q hpos]

lemma shapeOutputs_last {outs : List (Tensor α)} (h : outs ≠ []) (rs2d : Bool)
    (cs : Nat × Nat) (fm n : Nat) :
    shapeOutputs true rs2d cs fm n outs = .ok (outs.getLastD emptyTensor) := by
  have hne : outs.getLast? ≠ none := by
    simpa [List.getLast?_eq_none_iff] using h
  obtain ⟨o, ho⟩ := Option.ne_none_iff_exists'.mp hne
  simp [shapeOutputs, ho, List.getLastD_eq_getLast?]

/-- Full characterization of a successful unroll: with a rank-5 input whose
step axis is long enough, the layer executes exactly `n` cell invocations,
creates the cell's variables at step 0 only, and its result is the
output-shaping policy applied to the manually unrolled per-step outputs,
with the manually threaded final state. -/
lemma ConvLSTMLayer_eq_shaped (cell : Cell α σ) (cs : Nat × Nat) (fm n : Nat)
    (init : Option σ) (rl rs2d : Bool) (inputs : Tensor α) (b s : Nat)
    (rest : List Nat)
    (hshape : inputs.shape = b :: s :: rest) (hr : rest.length = 3)
    (h1 : 1 ≤ n) (hn : n ≤ s) :
    ConvLSTMLayer cell cs fm n init rl rs2d inputs =
      ((n, (0, cell.paramNames) ::
            (List.range' 1 (n - 1)).map (fun u => (u, ([] : List String)))),
       (shapeOutputs rl rs2d cs fm n
          (manualRun cell (sliceValue inputs) 0 n
            (resolveInitialState cell b inputs.dtype init)).1).map
         (fun o =>
            { batchSize := b,
              initialState := resolveInitialState cell b inputs.dtype init,
              outputs := o,
              finalState := (manualRun cell (sliceValue inputs) 0 n
                (resolveInitialState cell b inputs.dtype init)).2 })) := by
  have hrank : inputs.shape.length = 5 := by rw [hshape]; simp [hr]
  have hb : inputs.shape.headD 0 = b := by rw [hshape]; rfl
  have hsl : ∀ u, u < n → sliceAxis1 inputs u = .ok (sliceValue inputs u) :=
    fun u hu => sliceAxis1_ok_of_lt hshape (lt_of_lt_of_le hu hn)
  obtain ⟨h2, h3, h4, h5, h6⟩ :=
    runLoop_char cell inputs n (resolveInitialState cell b inputs.dtype init) h1 hsl
  simp only [ConvLSTMLayer, if_pos hrank, hb, h2, h3, h4, h5, h6]

/-- The shape contract of the cell (spec section 4.1): every step output is
a `[batch, height, width, feature_map]` array with matching data size. -/
def CellShaped (cell : Cell α σ) (b ch cw fm : Nat) : Prop :=
  ∀ x st, ((cell.app x st).1).shape = [b, ch, cw, fm] ∧
    ((cell.app x st).1).data.length = ([b, ch, cw, fm] : List Nat).prod

lemma manualRun_shape_of_mem {cell : Cell α σ} {b ch cw fm : Nat}
    (hcell : CellShaped cell b ch cw fm) (x : Nat → Tensor α) (fuel t : Nat) (s : σ)
    {o : Tensor α} (ho : o ∈ (manualRun cell x t fuel s).1) :
    o.shape = [b, ch, cw, fm] ∧ o.data.length = o.shape.prod := by
  obtain ⟨u, st, rfl⟩ := manualRun_mem cell x fuel t s o ho
  refine ⟨(hcell (x u) st).1, ?_⟩
  rw [(hcell (x u) st).1]
  exact (hcell (x u) st).2

lemma shapeOutputs_seq2d {outs : List (Tensor α)} {b ch cw fm : Nat}
    (hne : outs ≠ [])
    (hsh : ∀ t ∈ outs, t.shape = [b, ch, cw, fm])
    (hwf : ∀ t ∈ outs, t.data.length = t.shape.prod)
    (hch : 0 < ch) (hcw : 0 < cw) (hfm : 0 < fm) (n : Nat) :
    shapeOutputs false true (ch, cw) fm n outs =
      .ok ⟨[b * outs.length, ch * cw * fm], (outs.headD emptyTensor).dtype,
           concatAxis1Data outs b⟩ := by
  obtain ⟨t0, rest, rfl⟩ : ∃ t0 rest, outs = t0 :: rest := by
    cases outs with
    | nil => exact absurd rfl hne
    | cons a l => exact ⟨a, l, rfl⟩
  have hkonkat := concatAxis1_ok t0 rest b ch cw fm hsh
  have hq : (Tensor.mk [b, (t0 :: rest).length * ch, cw, fm] t0.dtype
      (concatAxis1Data (t0 :: rest) b)).shape.prod =
      (b * (t0 :: rest).length) * (ch * cw * fm) := by
    simp [List.prod_cons]
    ring
  have hresh := reshapeNeg1_ok (t := Tensor.mk [b, (t0 :: rest).length * ch, cw, fm]
      t0.dtype (concatAxis1Data (t0 :: rest) b))
    [ch * cw * fm] (ch * cw * fm) (by simp)
    (by positivity) (q := b * (t0 :: rest).length) hq
  simp only [shapeOutputs, Bool.false_eq_true, if_false, hkonkat, hresh, if_true]
  simp

lemma shapeOutputs_seq5d {outs : List (Tensor α)} {b ch cw fm n : Nat}
    (hne : outs ≠ []) (hlen : outs.length = n)
    (hsh : ∀ t ∈ outs, t.shape = [b, ch, cw, fm])
    (hwf : ∀ t ∈ outs, t.data.length = t.shape.prod)
    (hch : 0 < ch) (hcw : 0 < cw) (hfm : 0 < fm) :
    shapeOutputs false false (ch, cw) fm n outs =
      .ok ⟨[b, n, ch, cw, fm], (outs.headD emptyTensor).dtype,
           concatAxis1Data outs b⟩ := by
  obtain ⟨t0, rest, rfl⟩ : ∃ t0 rest, outs = t0 :: rest := by
    cases outs with
    | nil => exact absurd rfl hne
    | cons a l => exact ⟨a, l, rfl⟩
  have hpos : 0 < n := by
    rw [← hlen]
    simp
  have hkonkat := concatAxis1_ok t0 rest b ch cw fm hsh
  have hq : (Tensor.mk [b, (t0 :: rest).length * ch, cw, fm] t0.dtype
      (concatAxis1Data (t0 :: rest) b)).shape.prod =
      b * (n * ch * cw * fm) := by
    simp only [List.prod_cons, List.prod_nil]
    rw [← hlen]
    ring
  have hresh := reshapeNeg1_ok (t := Tensor.mk [b, (t0 :: rest).length * ch, cw, fm]
      t0.dtype (concatAxis1Data (t0 :: rest) b))
    [n, ch, cw, fm] (n * ch * cw * fm)
    (by simp only [List.prod_cons, List.prod_nil]; ring)
    (by positivity) (q := b) hq
  simp only [shapeOutputs, Bool.false_eq_true, if_false, hkonkat, hresh]
  simp

lemma runLoop_err (cell : Cell α σ) (inputs : Tensor α) {n : Nat} (st0 : σ)
    {b s : Nat} {rest : List Nat}
    (hshape : inputs.shape = b :: s :: rest) (hlt : s < n) :
    (runLoop cell inputs n (initialLoopState st0)).2 =
      some (.sliceOutOfRange s s) ∧
    (runLoop cell inputs n (initialLoopState st0)).1.calls = s := by
  have herr : sliceAxis1 inputs s = .error (.sliceOutOfRange s s) :=
    sliceAxis1_err_of_ge hshape le_rfl
  obtain ⟨m, rfl⟩ : ∃ m, n = m + 1 := ⟨n - 1, by omega⟩
  rcases Nat.eq_zero_or_pos s with hz | hpos
  · subst hz
    have hstep : stepOnce cell inputs 0 (initialLoopState st0) =
        .error (.sliceOutOfRange 0 0) := by
      simp [stepOnce, herr]
    simp only [runLoop, runAux, hstep]
    exact ⟨by simp, rfl⟩
  · have hsl0 : sliceAxis1 inputs 0 = .ok (sliceValue inputs 0) :=
      sliceAxis1_ok_of_lt hshape hpos
    have hstep0 : stepOnce cell inputs 0 (initialLoopState st0) =
        .ok { scope := ⟨false, cell.paramNames⟩,
              state := (cell.app (sliceValue inputs 0) st0).2,
              outputs := [(cell.app (sliceValue inputs 0) st0).1],
              calls := 1,
              createdLog := [(0, cell.paramNames)] } := by
      simp [stepOnce, hsl0, getOrCreate, initialLoopState]
    have hrec := runAux_err_of_pos cell inputs (.sliceOutOfRange s s) s herr m 1
      { scope := ⟨false, cell.paramNames⟩,
        state := (cell.app (sliceValue inputs 0) st0).2,
        outputs := [(cell.app (sliceValue inputs 0) st0).1],
        calls := 1,
        createdLog := [(0, cell.paramNames)] }
      le_rfl hpos (by omega)
      (fun u hu1 hu2 => sliceAxis1_ok_of_lt hshape hu2)
    simp only [runLoop, runAux, hstep0]
    refine ⟨hrec.1, ?_⟩
    rw [hrec.2]
    show 1 + (s - 1) = s
    omega

/-! ### Concrete fixtures used by witnesses and counterexamples -/

/-- A concrete cell over `Nat` data with trivial (unit) state.  Its outputs
are `[1, 1, 1, 1]`-shaped, so it satisfies `CellShaped` with
`b = ch = cw = fm = 1`. -/
def wCell : Cell Nat Unit :=
  { paramNames := ["weights"],
    app := fun _ _ => (⟨[1, 1, 1, 1], "float32", [0]⟩, ()),
    zeroState := fun _ _ => () }

/-- A valid rank-5 input whose step axis has length 1. -/
def wInput5 : Tensor Nat := ⟨[1, 1, 1, 1, 1], "float32", [7]⟩

/-- A rank-5 input whose step axis has length 2 (longer than a 1-step
configuration). -/
def wInputLong : Tensor Nat := ⟨[1, 2, 1, 1, 1], "float32", [7, 8]⟩

/-- A rank-4 input (invalid rank). -/
def wInput4 : Tensor Nat := ⟨[1, 1, 1, 1], "float32", [7]⟩

/-- A rank-3 input (invalid rank). -/
def wInput3 : Tensor Nat := ⟨[2, 1, 1], "float32", [7, 8]⟩

/-! ### Claim theorems -/

/-- C2: for every `n_steps ≥ 1` and every valid rank-5 input (step axis
equal to `n_steps`), `ConvLSTMLayer` with `return_last = true` succeeds and
its output is exactly the last per-step output of manually iterating the
cell `n_steps` times from the initial state in increasing step order, and
its final state is the manually threaded final state. -/
theorem convLSTM_return_last_is_manual_last (cell : Cell α σ) (cs : Nat × Nat)
    (fm n : Nat) (init : Option σ) (rs2d : Bool) (inputs : Tensor α)
    (b s : Nat) (rest : List Nat)
    (hshape : inputs.shape = b :: s :: rest) (hr : rest.length = 3)
    (hsteps : s = n) (h1 : 1 ≤ n) :
    (manualRun cell (sliceValue inputs) 0 n
        (resolveInitialState cell b inputs.dtype init)).1 ≠ [] ∧
    (ConvLSTMLayer cell cs fm n init true rs2d inputs).2 =
      .ok { batchSize := b,
            initialState := resolveInitialState cell b inputs.dtype init,
            outputs := (manualRun cell (sliceValue inputs) 0 n
              (resolveInitialState cell b inputs.dtype init)).1.getLastD emptyTensor,
            finalState := (manualRun cell (sliceValue inputs) 0 n
              (resolveInitialState cell b inputs.dtype init)).2 } := by
  have hlen := manualRun_length cell (sliceValue inputs) n 0
    (resolveInitialState cell b inputs.dtype init)
  have hne : (manualRun cell (sliceValue inputs) 0 n
      (resolveInitialState cell b inputs.dtype init)).1 ≠ [] := by
    intro hnil
    rw [hnil] at hlen
    simp at hlen
    omega
  refine ⟨hne, ?_⟩
  rw [ConvLSTMLayer_eq_shaped cell cs fm n init true rs2d inputs b s rest hshape hr h1
    (le_of_eq hsteps.symm)]
  rw [shapeOutputs_last hne]
  rfl

/-- Witness for C2 at a concrete one-step run. -/
theorem convLSTM_return_last_is_manual_last_witness :
    (manualRun wCell (sliceValue wInput5) 0 1
        (resolveInitialState wCell 1 wInput5.dtype none)).1 ≠ [] ∧
    (ConvLSTMLayer wCell (1, 1) 1 1 none true false wInput5).2 =
      .ok { batchSize := 1,
            initialState := resolveInitialState wCell 1 wInput5.dtype none,
            outputs := (manualRun wCell (sliceValue wInput5) 0 1
              (resolveInitialState wCell 1 wInput5.dtype none)).1.getLastD emptyTensor,
            finalState := (manualRun wCell (sliceValue wInput5) 0 1
              (resolveInitialState wCell 1 wInput5.dtype none)).2 } :=
  convLSTM_return_last_is_manual_last wCell (1, 1) 1 1 none false wInput5 1 1 [1, 1, 1]
    rfl rfl rfl (by decide)

/-- C7 (amended): for every input whose rank is not 5, construction fails
immediately with zero cell invocations and zero created variables, raising
the rank error whose message is the fixed string naming the expected rank-5
layout (the message does not depend on, and hence does not name, the
actual rank or shape). -/
theorem convLSTM_rank_check (cell : Cell α σ) (cs : Nat × Nat) (fm n : Nat)
    (init : Option σ) (rl rs2d : Bool) (inputs : Tensor α)
    (h : inputs.shape.length ≠ 5) :
    ConvLSTMLayer cell cs fm n init rl rs2d inputs =
      ((0, []), .error (.rankError rankErrMsg)) := by
  simp [ConvLSTMLayer, h]

/-- Witness for C7's amended theorem at a concrete rank-4 input. -/
theorem convLSTM_rank_check_witness :
    ConvLSTMLayer wCell (1, 1) 1 1 none true false wInput4 =
      ((0, []), .error (.rankError rankErrMsg)) :=
  convLSTM_rank_check wCell (1, 1) 1 1 none true false wInput4 (by decide)

/-- C7 counterexample to the claim as stated: the error message is one and
the same fixed string for a rank-4 and for a rank-3 input, so it cannot
name the actual rank or shape of the offending input (it names only the
expected rank-5 layout). -/
theorem convLSTM_rank_msg_counterexample :
    wInput4.shape.length = 4 ∧
    wInput3.shape.length = 3 ∧
    (ConvLSTMLayer wCell (1, 1) 1 1 none true false wInput4).2 =
      .error (.rankError rankErrMsg) ∧
    (ConvLSTMLayer wCell (1, 1) 1 1 none true false wInput3).2 =
      .error (.rankError rankErrMsg) ∧
    rankErrMsg =
      "RNN : Input dimension should be rank 5 : [batch_size, n_steps, input_x, input_y, feature_map]" :=
  ⟨rfl, rfl, rfl, rfl, rfl⟩

/-- C10: with `n_steps = 0` and a rank-5 input, the loop executes zero
iterations (zero cell invocations, nothing created), the loop leaves the
initial state untouched, and every output mode fails instead of returning
a result: `outputs[-1]` on the empty collection when `return_last`, and
the empty concatenation otherwise. -/
theorem convLSTM_zero_steps_fails (cell : Cell α σ) (cs : Nat × Nat) (fm : Nat)
    (init : Option σ) (rl rs2d : Bool) (inputs : Tensor α)
    (hrank : inputs.shape.length = 5) :
    ConvLSTMLayer cell cs fm 0 init rl rs2d inputs =
      ((0, []), .error (if rl then .emptyLast else .concatEmpty)) ∧
    runLoop cell inputs 0 (initialLoopState
        (resolveInitialState cell (inputs.shape.headD 0) inputs.dtype init)) =
      (initialLoopState
        (resolveInitialState cell (inputs.shape.headD 0) inputs.dtype init), none) := by
  refine ⟨?_, rfl⟩
  simp only [ConvLSTMLayer, if_pos hrank, runLoop, runAux]
  cases rl <;> simp [shapeOutputs, concatAxis1, initialLoopState, Except.map]

/-- Witness for C10 at a concrete rank-5 input, in both output modes. -/
theorem convLSTM_zero_steps_fails_witness :
    ConvLSTMLayer wCell (1, 1) 1 0 none true false wInput5 =
      ((0, []), .error .emptyLast) ∧
    ConvLSTMLayer wCell (1, 1) 1 0 none false false wInput5 =
      ((0, []), .error .concatEmpty) :=
  ⟨(convLSTM_zero_steps_fails wCell (1, 1) 1 none true false wInput5 (by decide)).1,
   (convLSTM_zero_steps_fails wCell (1, 1) 1 none false false wInput5 (by decide)).1⟩

/-- C6: within one unrolling of `n_steps ≥ 1` steps over a long-enough
rank-5 input, the run's creation log shows that the cell's variables are
created exactly once, at step 0, and that every step `t > 0` creates
nothing (the scope's reuse flag having been turned on): the same parameter
set backs every one of the `n_steps` cell invocations. -/
theorem convLSTM_params_created_once (cell : Cell α σ) (cs : Nat × Nat)
    (fm n : Nat) (init : Option σ) (rl rs2d : Bool) (inputs : Tensor α)
    (b s : Nat) (rest : List Nat)
    (hshape : inputs.shape = b :: s :: rest) (hr : rest.length = 3)
    (h1 : 1 ≤ n) (hn : n ≤ s) :
    (ConvLSTMLayer cell cs fm n init rl rs2d inputs).1 =
      (n, (0, cell.paramNames) ::
        (List.range' 1 (n - 1)).map (fun u => (u, ([] : List String)))) ∧
    ∀ p ∈ (ConvLSTMLayer cell cs fm n init rl rs2d inputs).1.2,
      0 < p.1 → p.2 = [] := by
  rw [ConvLSTMLayer_eq_shaped cell cs fm n init rl rs2d inputs b s rest hshape hr h1 hn]
  refine ⟨rfl, ?_⟩
  intro p hp hpos
  rcases List.mem_cons.mp hp with hp0 | hpm
  · rw [hp0] at hpos
    simp at hpos
  · obtain ⟨u, hu, rfl⟩ := List.mem_map.mp hpm
    rfl

/-- Witness for C6 at a concrete two-step run. -/
theorem convLSTM_params_created_once_witness :
    (ConvLSTMLayer wCell (1, 1) 1 2 none true false wInputLong).1 =
      (2, [(0, ["weights"]), (1, [])]) ∧
    ∀ p ∈ (ConvLSTMLayer wCell (1, 1) 1 2 none true false wInputLong).1.2,
      0 < p.1 → p.2 = [] := by
  have h := convLSTM_params_created_once wCell (1, 1) 1 2 none true false wInputLong
    1 2 [1, 1, 1] rfl rfl (by decide) (by decide)
  exact ⟨by rw [h.1]; rfl, h.2⟩

/-- C1 counterexample to the claim as stated: a rank-5 input whose step
axis (length 2) differs from the configured `n_steps = 1` does NOT make
construction fail — it succeeds, silently using only the first step. -/
theorem convLSTM_no_step_check_counterexample :
    wInputLong.shape = [1, 2, 1, 1, 1] ∧
    exceptIsOk (ConvLSTMLayer wCell (1, 1) 1 1 none true false wInputLong).2 = true :=
  ⟨rfl, rfl⟩

/-- C1 (amended): construction never checks the step axis against
`n_steps`.  When the step axis is longer than `n_steps ≥ 1`, construction
succeeds (with `return_last`), silently ignoring the extra steps; when it
is shorter, construction fails with the out-of-range slice error at step
`s` — but only after the cell has already been invoked exactly `s` times
(partial unrolling), not before the first invocation. -/
theorem convLSTM_step_mismatch_behavior (cell : Cell α σ) (cs : Nat × Nat)
    (fm n : Nat) (init : Option σ) (rs2d : Bool) (inputs : Tensor α)
    (b s : Nat) (rest : List Nat)
    (hshape : inputs.shape = b :: s :: rest) (hr : rest.length = 3) :
    (n < s → 1 ≤ n →
      exceptIsOk (ConvLSTMLayer cell cs fm n init true rs2d inputs).2 = true) ∧
    (s < n →
      (ConvLSTMLayer cell cs fm n init true rs2d inputs).1.1 = s ∧
      (ConvLSTMLayer cell cs fm n init true rs2d inputs).2 =
        .error (.sliceOutOfRange s s)) := by
  constructor
  · intro hlt h1
    rw [ConvLSTMLayer_eq_shaped cell cs fm n init true rs2d inputs b s rest hshape hr h1
      (le_of_lt hlt)]
    have hlen := manualRun_length cell (sliceValue inputs) n 0
      (resolveInitialState cell b inputs.dtype init)
    have hne : (manualRun cell (sliceValue inputs) 0 n
        (resolveInitialState cell b inputs.dtype init)).1 ≠ [] := by
      intro hnil
      rw [hnil] at hlen
      simp at hlen
      omega
    rw [shapeOutputs_last hne]
    rfl
  · intro hlt
    have hrank : inputs.shape.length = 5 := by rw [hshape]; simp [hr]
    have hb : inputs.shape.headD 0 = b := by rw [hshape]; rfl
    have herr := runLoop_err cell inputs
      (resolveInitialState cell b inputs.dtype init) hshape hlt
    simp only [ConvLSTMLayer, if_pos hrank, hb, herr.1, herr.2]
    simp

/-- Witness for C1's amended theorem: with `n_steps = 3` and a step axis of
length 2, construction fails at the slice of step 2 after exactly 2 cell
invocations. -/
theorem convLSTM_step_mismatch_behavior_witness :
    (ConvLSTMLayer wCell (1, 1) 1 3 none true false wInputLong).1.1 = 2 ∧
    (ConvLSTMLayer wCell (1, 1) 1 3 none true false wInputLong).2 =
      .error (.sliceOutOfRange 2 2) :=
  (convLSTM_step_mismatch_behavior wCell (1, 1) 1 3 none false wInputLong 1 2 [1, 1, 1]
    rfl rfl).2 (by decide)

/-- C8: the construction is a pure function of the cell's extensional
behavior (its step function, zero-state constructor and parameter names)
and the explicit arguments: two runs over cells with identical parameter
behavior and the same inputs produce bit-identical traces, outputs and
final states — no hidden mutable global state can influence the result. -/
theorem convLSTM_deterministic (c1 c2 : Cell α σ)
    (happ : ∀ x st, c1.app x st = c2.app x st)
    (hzero : ∀ bs dt, c1.zeroState bs dt = c2.zeroState bs dt)
    (hnames : c1.paramNames = c2.paramNames)
    (cs : Nat × Nat) (fm n : Nat) (init : Option σ) (rl rs2d : Bool)
    (inputs : Tensor α) :
    ConvLSTMLayer c1 cs fm n init rl rs2d inputs =
      ConvLSTMLayer c2 cs fm n init rl rs2d inputs := by
  have hc : c1 = c2 := by
    cases c1
    cases c2
    simp only [Cell.mk.injEq]
    exact ⟨hnames, funext fun x => funext fun st => happ x st,
      funext fun bs => funext fun dt => hzero bs dt⟩
  rw [hc]

/-- Witness for C8: two runs with the same concrete cell and input agree. -/
theorem convLSTM_deterministic_witness :
    ConvLSTMLayer wCell (1, 1) 1 1 none true false wInput5 =
      ConvLSTMLayer wCell (1, 1) 1 1 none true false wInput5 :=
  convLSTM_deterministic wCell wCell (fun _ _ => rfl) (fun _ _ => rfl) rfl
    (1, 1) 1 1 none true false wInput5

/-- C5: on a valid run, `final_state` is exactly the state produced by the
`n_steps`-th (last) cell invocation of the manual sequential iteration,
and the state threaded into the first step is the cell's zero state for
`batch_size` with the input tensor's dtype when `initial_state` is `None`,
and the caller-supplied state exactly as given otherwise. -/
theorem convLSTM_initial_and_final_state (cell : Cell α σ) (fm n : Nat)
    (init : Option σ) (rl rs2d : Bool) (inputs : Tensor α) (b ch cw : Nat)
    (hshape : inputs.shape = [b, n, ch, cw, fm])
    (hcell : CellShaped cell b ch cw fm)
    (h1 : 1 ≤ n) (hch : 0 < ch) (hcw : 0 < cw) (hfm : 0 < fm) :
    ∃ r, (ConvLSTMLayer cell (ch, cw) fm n init rl rs2d inputs).2 = .ok r ∧
      r.initialState = resolveInitialState cell b inputs.dtype init ∧
      (init = none → r.initialState = cell.zeroState b inputs.dtype) ∧
      (∀ st0, init = some st0 → r.initialState = st0) ∧
      r.finalState =
        (manualRun cell (sliceValue inputs) 0 n r.initialState).2 := by
  have hshape2 : inputs.shape = b :: n :: [ch, cw, fm] := by simpa using hshape
  rw [ConvLSTMLayer_eq_shaped cell (ch, cw) fm n init rl rs2d inputs b n [ch, cw, fm]
    hshape2 rfl h1 le_rfl]
  have hlen := manualRun_length cell (sliceValue inputs) n 0
    (resolveInitialState cell b inputs.dtype init)
  have hne : (manualRun cell (sliceValue inputs) 0 n
      (resolveInitialState cell b inputs.dtype init)).1 ≠ [] := by
    intro hnil
    rw [hnil] at hlen
    simp at hlen
    omega
  have hsh : ∀ o ∈ (manualRun cell (sliceValue inputs) 0 n
      (resolveInitialState cell b inputs.dtype init)).1, o.shape = [b, ch, cw, fm] :=
    fun o ho => (manualRun_shape_of_mem hcell (sliceValue inputs) n 0 _ ho).1
  have hwf : ∀ o ∈ (manualRun cell (sliceValue inputs) 0 n
      (resolveInitialState cell b inputs.dtype init)).1, o.data.length = o.shape.prod :=
    fun o ho => (manualRun_shape_of_mem hcell (sliceValue inputs) n 0 _ ho).2
  have hinit1 : init = none →
      resolveInitialState cell b inputs.dtype init = cell.zeroState b inputs.dtype := by
    intro h
    rw [h]
    rfl
  have hinit2 : ∀ st0, init = some st0 →
      resolveInitialState cell b inputs.dtype init = st0 := by
    intro st0 h
    rw [h]
    rfl
  cases rl with
  | true =>
    rw [shapeOutputs_last hne]
    exact ⟨_, rfl, rfl, hinit1, hinit2, rfl⟩
  | false =>
    cases rs2d with
    | true =>
      rw [shapeOutputs_seq2d hne hsh hwf hch hcw hfm n]
      exact ⟨_, rfl, rfl, hinit1, hinit2, rfl⟩
    | false =>
      rw [shapeOutputs_seq5d hne hlen hsh hwf hch hcw hfm]
      exact ⟨_, rfl, rfl, hinit1, hinit2, rfl⟩

/-- Witness for C5 at a concrete one-step run with default (zero) initial
state. -/
theorem convLSTM_initial_and_final_state_witness :
    ∃ r, (ConvLSTMLayer wCell (1, 1) 1 1 none true false wInput5).2 = .ok r ∧
      r.initialState = resolveInitialState wCell 1 wInput5.dtype none ∧
      (none = (none : Option Unit) →
        r.initialState = wCell.zeroState 1 wInput5.dtype) ∧
      (∀ st0, (none : Option Unit) = some st0 → r.initialState = st0) ∧
      r.finalState =
        (manualRun wCell (sliceValue wInput5) 0 1 r.initialState).2 :=
  convLSTM_initial_and_final_state wCell 1 1 none true false wInput5 1 1 1
    rfl (fun _ _ => ⟨rfl, rfl⟩) (by decide) (by decide) (by decide) (by decide)

/-- C3: with `return_last = false` and `return_seq_2d = true` on a valid
rank-5 input, the output is 2-dimensional, its second dimension is exactly
`cell_shape[0] * cell_shape[1] * feature_map`, and its total element count
is `batch * steps * height * width * feature_map`. -/
theorem convLSTM_seq2d_shape (cell : Cell α σ) (fm n : Nat) (init : Option σ)
    (inputs : Tensor α) (b ch cw : Nat)
    (hshape : inputs.shape = [b, n, ch, cw, fm])
    (hcell : CellShaped cell b ch cw fm)
    (h1 : 1 ≤ n) (hch : 0 < ch) (hcw : 0 < cw) (hfm : 0 < fm) :
    ∃ r, (ConvLSTMLayer cell (ch, cw) fm n init false true inputs).2 = .ok r ∧
      r.outputs.shape.length = 2 ∧
      r.outputs.shape = [b * n, ch * cw * fm] ∧
      r.outputs.data.length = b * n * (ch * cw * fm) := by
  have hshape2 : inputs.shape = b :: n :: [ch, cw, fm] := by simpa using hshape
  rw [ConvLSTMLayer_eq_shaped cell (ch, cw) fm n init false true inputs b n [ch, cw, fm]
    hshape2 rfl h1 le_rfl]
  have hlen := manualRun_length cell (sliceValue inputs) n 0
    (resolveInitialState cell b inputs.dtype init)
  have hne : (manualRun cell (sliceValue inputs) 0 n
      (resolveInitialState cell b inputs.dtype init)).1 ≠ [] := by
    intro hnil
    rw [hnil] at hlen
    simp at hlen
    omega
  have hsh : ∀ o ∈ (manualRun cell (sliceValue inputs) 0 n
      (resolveInitialState cell b inputs.dtype init)).1, o.shape = [b, ch, cw, fm] :=
    fun o ho => (manualRun_shape_of_mem hcell (sliceValue inputs) n 0 _ ho).1
  have hwf : ∀ o ∈ (manualRun cell (sliceValue inputs) 0 n
      (resolveInitialState cell b inputs.dtype init)).1, o.data.length = o.shape.prod :=
    fun o ho => (manualRun_shape_of_mem hcell (sliceValue inputs) n 0 _ ho).2
  rw [shapeOutputs_seq2d hne hsh hwf hch hcw hfm n]
  refine ⟨_, rfl, rfl, ?_, ?_⟩
  · show [b * (manualRun cell (sliceValue inputs) 0 n
      (resolveInitialState cell b inputs.dtype init)).1.length, ch * cw * fm] =
      [b * n, ch * cw * fm]
    rw [hlen]
  · show (concatAxis1Data (manualRun cell (sliceValue inputs) 0 n
      (resolveInitialState cell b inputs.dtype init)).1 b).length =
      b * n * (ch * cw * fm)
    rw [concatAxis1Data_length _ b ch cw fm hsh hwf, hlen]
    ring

/-- Witness for C3 at a concrete one-step run. -/
theorem convLSTM_seq2d_shape_witness :
    ∃ r, (ConvLSTMLayer wCell (1, 1) 1 1 none false true wInput5).2 = .ok r ∧
      r.outputs.shape.length = 2 ∧
      r.outputs.shape = [1 * 1, 1 * 1 * 1] ∧
      r.outputs.data.length = 1 * 1 * (1 * 1 * 1) :=
  convLSTM_seq2d_shape wCell 1 1 none wInput5 1 1 1
    rfl (fun _ _ => ⟨rfl, rfl⟩) (by decide) (by decide) (by decide) (by decide)

/-- C4: with `return_last = false` and `return_seq_2d = false` on a valid
rank-5 input, the output has shape exactly
`[batch, n_steps, cell_shape[0], cell_shape[1], feature_map]`, and its
row-major data is precisely the batch-major concatenation of the `n_steps`
manually computed per-step outputs in increasing step order. -/
theorem convLSTM_seq5d_shape (cell : Cell α σ) (fm n : Nat) (init : Option σ)
    (inputs : Tensor α) (b ch cw : Nat)
    (hshape : inputs.shape = [b, n, ch, cw, fm])
    (hcell : CellShaped cell b ch cw fm)
    (h1 : 1 ≤ n) (hch : 0 < ch) (hcw : 0 < cw) (hfm : 0 < fm) :
    ∃ r, (ConvLSTMLayer cell (ch, cw) fm n init false false inputs).2 = .ok r ∧
      r.outputs.shape = [b, n, ch, cw, fm] ∧
      r.outputs.data = concatAxis1Data (manualRun cell (sliceValue inputs) 0 n
        (resolveInitialState cell b inputs.dtype init)).1 b ∧
      (manualRun cell (sliceValue inputs) 0 n
        (resolveInitialState cell b inputs.dtype init)).1.length = n := by
  have hshape2 : inputs.shape = b :: n :: [ch, cw, fm] := by simpa using hshape
  rw [ConvLSTMLayer_eq_shaped cell (ch, cw) fm n init false false inputs b n [ch, cw, fm]
    hshape2 rfl h1 le_rfl]
  have hlen := manualRun_length cell (sliceValue inputs) n 0
    (resolveInitialState cell b inputs.dtype init)
  have hne : (manualRun cell (sliceValue inputs) 0 n
      (resolveInitialState cell b inputs.dtype init)).1 ≠ [] := by
    intro hnil
    rw [hnil] at hlen
    simp at hlen
    omega
  have hsh : ∀ o ∈ (manualRun cell (sliceValue inputs) 0 n
      (resolveInitialState cell b inputs.dtype init)).1, o.shape = [b, ch, cw, fm] :=
    fun o ho => (manualRun_shape_of_mem hcell (sliceValue inputs) n 0 _ ho).1
  have hwf : ∀ o ∈ (manualRun cell (sliceValue inputs) 0 n
      (resolveInitialState cell b inputs.dtype init)).1, o.data.length = o.shape.prod :=
    fun o ho => (manualRun_shape_of_mem hcell (sliceValue inputs) n 0 _ ho).2
  rw [shapeOutputs_seq5d hne hlen hsh hwf hch hcw hfm]
  exact ⟨_, rfl, rfl, rfl, hlen⟩

/-- Witness for C4 at a concrete one-step run. -/
theorem convLSTM_seq5d_shape_witness :
    ∃ r, (ConvLSTMLayer wCell (1, 1) 1 1 none false false wInput5).2 = .ok r ∧
      r.outputs.shape = [1, 1, 1, 1, 1] ∧
      r.outputs.data = concatAxis1Data (manualRun wCell (sliceValue wInput5) 0 1
        (resolveInitialState wCell 1 wInput5.dtype none)).1 1 ∧
      (manualRun wCell (sliceValue wInput5) 0 1
        (resolveInitialState wCell 1 wInput5.dtype none)).1.length = 1 :=
  convLSTM_seq5d_shape wCell 1 1 none wInput5 1 1 1
    rfl (fun _ _ => ⟨rfl, rfl⟩) (by decide) (by decide) (by decide) (by decide)

/-- C9: for every DeConv layer (the 1D, 2D and 3D variants run this same
code up to the arity of the external primitive, abstract here) and every
input: `build` always creates the filter from the configured shape, and
creates the bias — sized to the output-channel count `shape[-2]` — exactly
when a bias initializer is supplied (no bias term otherwise); `forward`
equals the external transposed-convolution primitive applied with the
configured filter, explicit `outputs_shape`, strides, padding mode, data
format and dilation rates, followed by a channel-axis bias addition
exactly when the bias exists, followed by the activation exactly when one
was supplied. -/
theorem deconv_build_forward (l : DeConvLayer α ι)
    (prim : Tensor α → Tensor α → List Nat → List Nat → String → String → List Nat → Tensor α)
    (biasAdd : Tensor α → Tensor α → String → Tensor α)
    (getWeights : String → List Nat → ι → Tensor α) (inputs : Tensor α) :
    (l.build getWeights).W = getWeights "filters" l.shape l.W_init ∧
    (l.build getWeights).b = l.b_init.map
      (fun bi => getWeights "biases" [l.shape.getD (l.shape.length - 2) 0] bi) ∧
    l.forward prim biasAdd (l.build getWeights) inputs =
      forwardContract l prim biasAdd (l.build getWeights).W
        (l.build getWeights).b inputs := by
  refine ⟨rfl, ?_, ?_⟩
  · cases hb : l.b_init <;> simp [DeConvLayer.build, hb]
  · cases hb : l.b_init <;>
      simp [DeConvLayer.build, DeConvLayer.forward, forwardContract, applyAct, hb]

end TL
